import Mathlib

/-!
Verification of the Audio-Trimmer repository (src/audio_trimmer.py).

The script's observable logic is three functions: parse_timestamp (timestamp
text to integer milliseconds), format_duration (integer milliseconds to a
display string), and trim_audio (load, clamp, validate, slice, export).
Strings are embedded as lists of characters; Python ints are embedded as
Lean integers.

The Python code computes with IEEE-754 binary64 floating point (the float
builtin, float arithmetic, float formatting).  CPython's float constructor
is correctly rounded, its arithmetic is IEEE-754 double precision, and its
fixed-point formatting is correctly rounded (round half to even on the exact
decimal value of the double).  We model a finite double by the exact rational
value it denotes, and every operation by the exact result rounded with
round-to-nearest, ties-to-even at 53-bit precision (with overflow to
infinity); this is the exact semantics of the Python operations used by the
script, restricted to ASCII text.  Unmodelled corners, each noted at its
definition: negative zero (indistinguishable by int() and by the arithmetic
used here), non-ASCII digits and whitespace, and the rendering of non-finite
floats by fixed-point formatting (unreachable in this program).

Rational arithmetic is written with kernel-reducible wrappers (qadd, qmul,
qsub, qdivInt, qmulInt, qpow2, qpow10) built on mkRat and Rat.divInt, so
that every definition evaluates inside the kernel; bridge lemmas identify
each wrapper with the corresponding field operation on the rationals.
-/

set_option maxRecDepth 10000

/-- Kernel-reducible rational addition; equals a + b. -/
def qadd (a b : ℚ) : ℚ := mkRat (a.num * b.den + b.num * a.den) (a.den * b.den)

/-- Kernel-reducible rational subtraction; equals a - b. -/
def qsub (a b : ℚ) : ℚ := mkRat (a.num * b.den - b.num * a.den) (a.den * b.den)

/-- Kernel-reducible rational multiplication; equals a * b. -/
def qmul (a b : ℚ) : ℚ := mkRat (a.num * b.num) (a.den * b.den)

/-- Kernel-reducible division of a rational by an integer; equals a / n
(with the rationals' zero-divisor convention for n = 0). -/
def qdivInt (a : ℚ) (n : ℤ) : ℚ := Rat.divInt a.num ((a.den : ℤ) * n)

/-- Kernel-reducible multiplication of a rational by an integer; equals a * n. -/
def qmulInt (a : ℚ) (n : ℤ) : ℚ := mkRat (a.num * n) a.den

/-- Kernel-reducible power of two with integer exponent; equals 2 ^ e. -/
def qpow2 (e : ℤ) : ℚ := if 0 ≤ e then ((2 ^ e.toNat : ℤ) : ℚ) else mkRat 1 (2 ^ (-e).toNat)

/-- Kernel-reducible scaling by a power of ten; equals a * 10 ^ e. -/
def qmulPow10 (a : ℚ) (e : ℤ) : ℚ :=
  if 0 ≤ e then qmulInt a (10 ^ e.toNat) else Rat.divInt a.num ((a.den : ℤ) * 10 ^ (-e).toNat)

/-- Decidable equality of error results, for concrete evaluations. -/
instance exceptDecEq {ε α : Type} [DecidableEq ε] [DecidableEq α] :
    DecidableEq (Except ε α) := fun a b =>
  match a, b with
  | .ok x, .ok y =>
    if h : x = y then .isTrue (by rw [h]) else
      .isFalse (by simp only [Except.ok.injEq]; exact h)
  | .error x, .error y =>
    if h : x = y then .isTrue (by rw [h]) else
      .isFalse (by simp only [Except.error.injEq]; exact h)
  | .ok _, .error _ => .isFalse (by simp only [ne_eq, reduceCtorEq, not_false_eq_true])
  | .error _, .ok _ => .isFalse (by simp only [ne_eq, reduceCtorEq, not_false_eq_true])

/-- Error values a Python-level operation in this script can raise. -/
inductive PyErr where
  | valueError : PyErr
  | overflowError : PyErr
  | zeroDivisionError : PyErr
  | decodeError : PyErr
  | encodeError : PyErr
deriving DecidableEq, Repr

/-- A CPython float: either a finite binary64 value, denoted by the exact
rational value it represents, or an infinity with a sign (true = negative),
or a NaN.  Negative zero is identified with zero; the operations used by
this script (int conversion, comparisons, the arithmetic above zero) cannot
distinguish them. -/
inductive PyFloat where
  | finite : ℚ → PyFloat
  | inf : Bool → PyFloat
  | nan : PyFloat
deriving DecidableEq, Repr

/-- Base-2 logarithm of a natural number, rounded down, computed with an
explicit fuel argument so that it reduces in the kernel. -/
def natLog2Aux : ℕ → ℕ → ℕ
  | 0, _ => 0
  | fuel + 1, n => if n < 2 then 0 else natLog2Aux fuel (n / 2) + 1

/-- Base-2 logarithm of a natural number, rounded down (0 for inputs 0, 1). -/
def natLog2 (n : ℕ) : ℕ := natLog2Aux n n

/-- The unique k with 2 ^ k <= q < 2 ^ (k + 1), for a positive rational q.
The difference of the bit lengths of numerator and denominator gives a
first guess that is off by at most one; the two comparisons repair it. -/
def ratLog2Floor (q : ℚ) : ℤ :=
  let k : ℤ := (natLog2 q.num.natAbs : ℤ) - (natLog2 q.den : ℤ)
  if qpow2 (k + 1) ≤ q then k + 1
  else if q < qpow2 k then k - 1
  else k

/-- Round a rational to the nearest integer, ties to even. -/
def rne (q : ℚ) : ℤ :=
  if qsub q ((⌊q⌋ : ℤ) : ℚ) < mkRat 1 2 then ⌊q⌋
  else if mkRat 1 2 < qsub q ((⌊q⌋ : ℤ) : ℚ) then ⌊q⌋ + 1
  else if ⌊q⌋ % 2 = 0 then ⌊q⌋ else ⌊q⌋ + 1

/-- Scaling exponent for rounding q to binary64: 52 below the leading bit
of |q|, floored at the subnormal exponent -1074. -/
def rdExp (q : ℚ) : ℤ := max (-1074) (ratLog2Floor |q| - 52)

/-- Scaled mantissa for rounding q to binary64: |q| / 2 ^ rdExp, rounded to
the nearest integer with ties to even. -/
def rdMant (q : ℚ) : ℤ := rne (qmul |q| (qpow2 (-rdExp q)))

/-- Mantissa after renormalization: a mantissa that rounded up to 2 ^ 53
drops back to 2 ^ 52 with the exponent bumped (see rdE2). -/
def rdM2 (q : ℚ) : ℤ := if rdMant q = 2 ^ 53 then 2 ^ 52 else rdMant q

/-- Exponent after renormalization. -/
def rdE2 (q : ℚ) : ℤ := if rdMant q = 2 ^ 53 then rdExp q + 1 else rdExp q

/-- Round an exact rational to the nearest binary64 value (round to nearest,
ties to even), overflowing to a signed infinity.  Finite binary64 values
are the rationals m * 2 ^ e with |m| < 2 ^ 53 and -1074 <= e <= 971. -/
def roundDouble (q : ℚ) : PyFloat :=
  if q = 0 then .finite 0
  else if 971 < rdE2 q then .inf (q < 0)
  else .finite (qmul ((if q < 0 then -rdM2 q else rdM2 q : ℤ) : ℚ) (qpow2 (rdE2 q)))

/-- Python float multiplication.  An int operand of the source (60, 1000,
3600) is converted exactly beforehand, so it appears here as a finite value. -/
def mulD : PyFloat → PyFloat → PyFloat
  | .nan, _ => .nan
  | _, .nan => .nan
  | .inf s1, .inf s2 => .inf (xor s1 s2)
  | .inf s1, .finite q => if q = 0 then .nan else .inf (xor s1 (decide (q < 0)))
  | .finite q, .inf s2 => if q = 0 then .nan else .inf (xor (decide (q < 0)) s2)
  | .finite a, .finite b => roundDouble (qmul a b)

/-- Python float addition. -/
def addD : PyFloat → PyFloat → PyFloat
  | .nan, _ => .nan
  | _, .nan => .nan
  | .inf s1, .inf s2 => if s1 = s2 then .inf s1 else .nan
  | .inf s, .finite _ => .inf s
  | .finite _, .inf s => .inf s
  | .finite a, .finite b => roundDouble (qadd a b)

/-- Truncation of a rational toward zero, the semantics of Python's int()
applied to a finite float. -/
def ratTrunc (q : ℚ) : ℤ := if 0 ≤ q then ⌊q⌋ else -⌊-q⌋

/-- Python int(x) for a float x: ValueError on NaN, OverflowError on an
infinity, truncation toward zero on a finite value. -/
def pyIntOfFloat : PyFloat → Except PyErr ℤ
  | .nan => .error .valueError
  | .inf _ => .error .overflowError
  | .finite q => .ok (ratTrunc q)

/-- Python true division of two ints (the expression milliseconds / 1000).
CPython computes the correctly rounded quotient directly, raising
ZeroDivisionError on a zero divisor and OverflowError when the rounded
quotient does not fit a double. -/
def intTrueDiv (a b : ℤ) : Except PyErr PyFloat :=
  if b = 0 then .error .zeroDivisionError
  else
    match roundDouble (Rat.divInt a b) with
    | .finite q => .ok (.finite q)
    | _ => .error .overflowError

/-- Python floor division of a float by an int (seconds // 3600): the floor
of the exact quotient, rounded to a double.  A non-finite dividend yields
NaN, as in CPython. -/
def floordivD (x : PyFloat) (n : ℤ) : Except PyErr PyFloat :=
  if n = 0 then .error .zeroDivisionError
  else
    match x with
    | .nan => .ok .nan
    | .inf _ => .ok .nan
    | .finite q => .ok (roundDouble ((⌊qdivInt q n⌋ : ℤ) : ℚ))

/-- Python modulo of a float by an int (seconds % 60): the remainder with
the divisor's sign.  For the nonnegative dividends this script produces the
result is exactly representable, so no rounding occurs; CPython's sign
adjustment for mixed signs (which can round) is not modelled. -/
def pymodD (x : PyFloat) (n : ℤ) : Except PyErr PyFloat :=
  if n = 0 then .error .zeroDivisionError
  else
    match x with
    | .nan => .ok .nan
    | .inf _ => .ok .nan
    | .finite q => .ok (.finite (qsub q ((⌊qdivInt q n⌋ * n : ℤ) : ℚ)))

/-- Python int to float conversion (implicit in mixed arithmetic): the
correctly rounded double, OverflowError when too large. -/
def pyFloatOfInt (n : ℤ) : Except PyErr PyFloat :=
  match roundDouble ((n : ℤ) : ℚ) with
  | .finite q => .ok (.finite q)
  | _ => .error .overflowError

/-- ASCII whitespace, the characters stripped by the string handling in this
script (Python also strips non-ASCII Unicode whitespace, not modelled). -/
def isPySpace (c : Char) : Bool :=
  c = ' ' || c = '\t' || c = '\n' || c = '\r' || c = '\x0b' || c = '\x0c'

/-- Python str.strip(): remove leading and trailing whitespace. -/
def pyStrip (l : List Char) : List Char :=
  ((l.dropWhile isPySpace).reverse.dropWhile isPySpace).reverse

/-- Characters that may appear in a digit run of a numeric literal. -/
def isDigUnd (c : Char) : Bool := c.isDigit || c = '_'

/-- Validity of the tail of a digit run: every underscore sits between two
digits (Python number literals allow single underscores as separators). -/
def validTail : List Char → Bool
  | [] => true
  | '_' :: rest =>
    match rest with
    | [] => false
    | d :: _ => d.isDigit && validTail rest
  | c :: rest => c.isDigit && validTail rest

/-- Consume a (possibly empty) digit run with underscore separators from the
front of the text: some (digits, rest) with the underscores dropped, or none
when a run is present but malformed (stray underscore). -/
def takeDigs (l : List Char) : Option (List Char × List Char) :=
  let run := l.takeWhile isDigUnd
  if run.isEmpty then some ([], l)
  else
    match run with
    | c :: t =>
      if c.isDigit && validTail t then
        some (run.filter Char.isDigit, l.dropWhile isDigUnd)
      else none
    | [] => none

/-- Numeric value of a list of decimal digit characters. -/
def natOfDigits (l : List Char) : ℕ := l.foldl (fun a c => 10 * a + (c.toNat - 48)) 0

/-- Exponent part of a float literal (the text after e or E) applied to an
already parsed mantissa: optional sign, then a digit run consuming the whole
remaining text. -/
def parseExp (mant : ℚ) (rest : List Char) : Option ℚ :=
  let se : Bool × List Char :=
    match rest with
    | '+' :: r => (false, r)
    | '-' :: r => (true, r)
    | _ => (false, rest)
  match takeDigs se.2 with
  | none => none
  | some (ed, r3) =>
    if ed.isEmpty || !r3.isEmpty then none
    else some (qmulPow10 mant (if se.1 then -(natOfDigits ed : ℤ) else (natOfDigits ed : ℤ)))

/-- The exact rational value of an unsigned Python float literal: digits
with optional underscores, optional fraction after a dot, optional exponent,
at least one mantissa digit, whole text consumed.  Mirrors CPython's float()
grammar restricted to ASCII digits. -/
def parseDecimal (l : List Char) : Option ℚ :=
  match takeDigs l with
  | none => none
  | some (ip, r1) =>
    let fr : Option (List Char × List Char) :=
      match r1 with
      | '.' :: rest => takeDigs rest
      | _ => some ([], r1)
    match fr with
    | none => none
    | some (fp, r2) =>
      if ip.isEmpty && fp.isEmpty then none
      else
        let mant : ℚ := qadd ((natOfDigits ip : ℤ) : ℚ) (mkRat (natOfDigits fp) (10 ^ fp.length))
        match r2 with
        | [] => some mant
        | 'e' :: rest => parseExp mant rest
        | 'E' :: rest => parseExp mant rest
        | _ => none

/-- Lower-case image of a text, for the case-insensitive literals of float(). -/
def lowerAll (l : List Char) : List Char := l.map Char.toLower

/-- CPython float(text) on ASCII text: strip whitespace, optional sign, then
inf, infinity or nan (case-insensitive) or a decimal literal; the decimal
value is correctly rounded to binary64.  ValueError otherwise. -/
def pyFloatVal (l : List Char) : Except PyErr PyFloat :=
  let t := pyStrip l
  let sb : Bool × List Char :=
    match t with
    | '+' :: r => (false, r)
    | '-' :: r => (true, r)
    | _ => (false, t)
  let body := sb.2
  if lowerAll body = ['i', 'n', 'f'] || lowerAll body = ['i', 'n', 'f', 'i', 'n', 'i', 't', 'y'] then
    .ok (.inf sb.1)
  else if lowerAll body = ['n', 'a', 'n'] then .ok .nan
  else
    match parseDecimal body with
    | some q => .ok (roundDouble (if sb.1 then -q else q))
    | none => .error .valueError

/-- CPython int(text) in base 10 on ASCII text: strip whitespace, optional
sign, then a digit run with optional underscores consuming the whole text. -/
def pyIntVal (l : List Char) : Except PyErr ℤ :=
  let t := pyStrip l
  let sb : Bool × List Char :=
    match t with
    | '+' :: r => (false, r)
    | '-' :: r => (true, r)
    | _ => (false, t)
  match takeDigs sb.2 with
  | none => .error .valueError
  | some (ds, rest) =>
    if ds.isEmpty || !rest.isEmpty then .error .valueError
    else .ok (if sb.1 then -(natOfDigits ds : ℤ) else (natOfDigits ds : ℤ))

/-- The test of line 33 of the source: the stripped text ends in the two
characters m, s. -/
def endsMs (l : List Char) : Bool :=
  match l.reverse with
  | 's' :: 'm' :: _ => true
  | _ => false

/-- Python text.split on the colon separator: the list of colon-free
segments, with empty segments preserved. -/
def splitColon : List Char → List (List Char)
  | [] => [[]]
  | c :: rest =>
    if c = ':' then [] :: splitColon rest
    else
      match splitColon rest with
      | s :: ss => (c :: s) :: ss
      | [] => [[c]]

/-- The body of parse_timestamp (lines 33 to 47 of the source) on already
stripped text.  The suffix ms takes the prefix through int(); otherwise a
colon selects the 2-segment (MM:SS) or 3-segment (HH:MM:SS) float forms,
any other segment count falling through to return Python's None (modelled
as ok none); otherwise the whole text is float seconds.  Each arithmetic
step is the float operation of the source; int() truncates.  Raised
ValueError/OverflowError propagate as error results. -/
def parse_core (t : List Char) : Except PyErr (Option ℤ) :=
  if endsMs t then
    match pyIntVal (t.take (t.length - 2)) with
    | .error e => .error e
    | .ok n => .ok (some n)
  else if t.contains ':' then
    match splitColon t with
    | [a, b] =>
      match pyFloatVal a with
      | .error e => .error e
      | .ok minutes =>
        match pyFloatVal b with
        | .error e => .error e
        | .ok seconds =>
          match pyIntOfFloat (mulD (addD (mulD minutes (.finite 60)) seconds) (.finite 1000)) with
          | .error e => .error e
          | .ok r => .ok (some r)
    | [a, b, c] =>
      match pyFloatVal a with
      | .error e => .error e
      | .ok hours =>
        match pyFloatVal b with
        | .error e => .error e
        | .ok minutes =>
          match pyFloatVal c with
          | .error e => .error e
          | .ok seconds =>
            match pyIntOfFloat (mulD (addD (addD (mulD hours (.finite 3600))
                (mulD minutes (.finite 60))) seconds) (.finite 1000)) with
            | .error e => .error e
            | .ok r => .ok (some r)
    | _ => .ok none
  else
    match pyFloatVal t with
    | .error e => .error e
    | .ok s =>
      match pyIntOfFloat (mulD s (.finite 1000)) with
      | .error e => .error e
      | .ok r => .ok (some r)

/-- parse_timestamp of the source: strip the input (line 30), then parse.
The result is ok (some ms) for a parsed value, ok none for Python's silent
None fallthrough, error for a raised exception. -/
def parse_timestamp (timestamp_str : List Char) : Except PyErr (Option ℤ) :=
  parse_core (pyStrip timestamp_str)

/-- The exact rational number denoted by a signed decimal timestamp text,
with no floating-point rounding: the claim-side reading of the text as a
possibly fractional decimal number, used to compare the code's value
against exact-rational semantics. -/
def specDecimalValue (l : List Char) : Option ℚ :=
  let t := pyStrip l
  match t with
  | '+' :: r => parseDecimal r
  | '-' :: r => (parseDecimal r).map Neg.neg
  | _ => parseDecimal t

/-- Decimal digit characters of a natural number, most significant first,
with fuel for kernel reduction. -/
def natDigitsAux : ℕ → ℕ → List Char
  | 0, _ => []
  | fuel + 1, n =>
    if n < 10 then [Char.ofNat (48 + n)]
    else natDigitsAux fuel (n / 10) ++ [Char.ofNat (48 + n % 10)]

/-- Decimal digit characters of a natural number, most significant first. -/
def natDigits (n : ℕ) : List Char := natDigitsAux (n + 1) n

/-- Zero padding on the left to a minimum width. -/
def padZeros (w : ℕ) (l : List Char) : List Char := List.replicate (w - l.length) '0' ++ l

/-- Python format 02d: minimum width two, zero padded, sign first. -/
def pad2 (n : ℤ) : List Char :=
  if n < 0 then '-' :: natDigits (-n).toNat else padZeros 2 (natDigits n.toNat)

/-- Python format 05.2f for a float: two decimals, correctly rounded with
ties to even on the exact value of the double, zero padded to width five,
sign first.  The renderings of NaN and infinities are simplified here; they
are unreachable in format_duration, whose seconds value is always finite. -/
def fmt52 : PyFloat → List Char
  | .nan => ['n', 'a', 'n']
  | .inf true => ['-', 'i', 'n', 'f']
  | .inf false => ['i', 'n', 'f']
  | .finite q =>
    let n2 : ℤ := rne (qmulInt |q| 100)
    let ip := (n2 / 100).toNat
    let fp := (n2 % 100).toNat
    let body := natDigits ip ++ '.' :: padZeros 2 (natDigits fp)
    if q < 0 then '-' :: padZeros 4 body else padZeros 5 body

/-- format_duration of the source (lines 50 to 60): seconds is the float
milliseconds / 1000; hours and minutes come from float floor division and
modulo through int(); the text is HH:MM:SS.ss when hours is positive and
MM:SS.ss otherwise, with the formats 02d and 05.2f.  Each step's raised
error propagates (possible only for astronomically large inputs, where the
int to float conversion overflows). -/
def format_duration (milliseconds : ℤ) : Except PyErr (List Char) :=
  match intTrueDiv milliseconds 1000 with
  | .error e => .error e
  | .ok seconds =>
    match floordivD seconds 3600 with
    | .error e => .error e
    | .ok hf =>
      match pyIntOfFloat hf with
      | .error e => .error e
      | .ok hours =>
        match pymodD seconds 3600 with
        | .error e => .error e
        | .ok m1 =>
          match floordivD m1 60 with
          | .error e => .error e
          | .ok mf =>
            match pyIntOfFloat mf with
            | .error e => .error e
            | .ok minutes =>
              match pymodD seconds 60 with
              | .error e => .error e
              | .ok secs =>
                if hours > 0 then
                  .ok (pad2 hours ++ ':' :: (pad2 minutes ++ ':' :: fmt52 secs))
                else
                  .ok (pad2 minutes ++ ':' :: fmt52 secs)

/-- Result of one trim_audio call: the returned boolean, whether the export
step was invoked, and the slice handed to export (none when never sliced). -/
structure TrimResult (α : Type) where
  success : Bool
  exportCalled : Bool
  exported : Option (List α)
deriving DecidableEq

/-- Python slice audio[s:e] of an audio segment at millisecond resolution:
the segment is modelled as its list of millisecond frames, so its length is
its duration and slicing is drop and take.  Negative-index wraparound is not
modelled; the source slices only after validation, where 0 <= s < e. -/
def pySlice {α : Type} (l : List α) (s e : ℤ) : List α :=
  (l.drop s.toNat).take (e.toNat - s.toNat)

/-- Lines 83 to 95 of the source, after clamping: validate s < e (raising
ValueError otherwise, caught to a False return with nothing exported), print
both bounds through format_duration, slice, export, then print the slice's
duration through format_duration.  A raised error after the export call
still returns False, but with the export already invoked. -/
def trim_validated {α : Type} (audio : List α) (s e : ℤ)
    (exportResult : Except PyErr Unit) : TrimResult α :=
  if s ≥ e then ⟨false, false, none⟩
  else
    match format_duration s with
    | .error _ => ⟨false, false, none⟩
    | .ok _ =>
      match format_duration e with
      | .error _ => ⟨false, false, none⟩
      | .ok _ =>
        let trimmed := pySlice audio s e
        match exportResult with
        | .error _ => ⟨false, true, some trimmed⟩
        | .ok _ =>
          match format_duration (trimmed.length : ℤ) with
          | .error _ => ⟨false, true, some trimmed⟩
          | .ok _ => ⟨true, true, some trimmed⟩

/-- Lines 74 to 95 of the source after a successful load: take the duration,
print it through format_duration, clamp the bounds (lines 78 to 81), and
continue with the validated phase. -/
def trim_core {α : Type} (audio : List α) (start_time end_time : ℤ)
    (exportResult : Except PyErr Unit) : TrimResult α :=
  match format_duration (audio.length : ℤ) with
  | .error _ => ⟨false, false, none⟩
  | .ok _ =>
    trim_validated audio
      (if start_time < 0 then 0 else start_time)
      (if end_time > (audio.length : ℤ) then (audio.length : ℤ) else end_time)
      exportResult

/-- trim_audio of the source (lines 63 to 101).  The external decoder's
outcome for the input path is the load argument (error = a raised decode
failure in AudioSegment.from_file); the external encoder's outcome is
exportResult (error = a raised encode or write failure in export).  The
try/except wrapper maps every raised error to a False return, so the result
type is exception-free. -/
def trim_audio {α : Type} (load : Except PyErr (List α)) (start_time end_time : ℤ)
    (exportResult : Except PyErr Unit) : TrimResult α :=
  match load with
  | .error _ => ⟨false, false, none⟩
  | .ok audio => trim_core audio start_time end_time exportResult

/-- The exact claim-side shape HH:MM:SS.ss: two-digit hours, two-digit
minutes, and a two-digit-integer-part, two-decimal-fraction seconds value. -/
def isShapeHHMMSS : List Char → Bool
  | [h1, h2, ':', m1, m2, ':', s1, s2, '.', f1, f2] =>
    h1.isDigit && h2.isDigit && m1.isDigit && m2.isDigit &&
      s1.isDigit && s2.isDigit && f1.isDigit && f2.isDigit
  | _ => false

/-- The exact claim-side shape MM:SS.ss: two-digit minutes and a
two-digit-integer-part, two-decimal-fraction seconds value. -/
def isShapeMMSS : List Char → Bool
  | [m1, m2, ':', s1, s2, '.', f1, f2] =>
    m1.isDigit && m2.isDigit && s1.isDigit && s2.isDigit && f1.isDigit && f2.isDigit
  | _ => false

/-- The hours component computed inside format_duration (int of float floor
division of seconds by 3600), exposed to state the shape property. -/
def fd_hours (milliseconds : ℤ) : Option ℤ :=
  match intTrueDiv milliseconds 1000 with
  | .error _ => none
  | .ok seconds =>
    match floordivD seconds 3600 with
    | .error _ => none
    | .ok hf =>
      match pyIntOfFloat hf with
      | .error _ => none
      | .ok hours => some hours

/-! ## Bridge lemmas: each kernel-reducible wrapper equals the field operation -/

theorem qadd_eq (a b : ℚ) : qadd a b = a + b := by
  rw [qadd, Rat.add_def', Int.mul_comm b.num]

theorem qsub_eq (a b : ℚ) : qsub a b = a - b := by
  rw [qsub, Rat.sub_def', Int.mul_comm b.num]

theorem qmul_eq (a b : ℚ) : qmul a b = a * b := by
  rw [qmul, Rat.mul_def, Rat.normalize_eq_mkRat]

theorem qdivInt_eq (a : ℚ) (n : ℤ) : qdivInt a n = a / (n : ℚ) := by
  rw [qdivInt, Rat.divInt_eq_div]
  push_cast
  rw [div_mul_eq_div_div, Rat.num_div_den]

theorem qmulInt_eq (a : ℚ) (n : ℤ) : qmulInt a n = a * (n : ℚ) := by
  rw [qmulInt, Rat.mkRat_eq_divInt, Rat.divInt_eq_div]
  push_cast
  rw [mul_div_right_comm, Rat.num_div_den]

theorem qpow2_eq (e : ℤ) : qpow2 e = (2 : ℚ) ^ e := by
  rw [qpow2]
  split
  · rename_i h
    push_cast
    rw [← zpow_natCast (2 : ℚ) e.toNat, Int.toNat_of_nonneg h]
  · rename_i h
    rw [Rat.mkRat_eq_divInt, Rat.divInt_eq_div]
    push_cast
    rw [← zpow_natCast (2 : ℚ) (-e).toNat, Int.toNat_of_nonneg (by omega : (0:ℤ) ≤ -e)]
    rw [zpow_neg, one_div, inv_inv]

theorem qmulPow10_eq (a : ℚ) (e : ℤ) : qmulPow10 a e = a * (10 : ℚ) ^ e := by
  rw [qmulPow10]
  split
  · rename_i h
    rw [qmulInt_eq]
    push_cast
    rw [← zpow_natCast (10 : ℚ) e.toNat, Int.toNat_of_nonneg h]
  · rename_i h
    rw [Rat.divInt_eq_div]
    push_cast
    rw [← zpow_natCast (10 : ℚ) (-e).toNat, Int.toNat_of_nonneg (by omega : (0:ℤ) ≤ -e)]
    rw [div_mul_eq_div_div, Rat.num_div_den, zpow_neg, div_eq_mul_inv, inv_inv]

/-! ## List helper lemmas -/

theorem dropWhile_dropWhile (p : Char → Bool) (l : List Char) :
    (l.dropWhile p).dropWhile p = l.dropWhile p := by
  induction l with
  | nil => rfl
  | cons a t ih =>
    by_cases h : p a
    · simp only [List.dropWhile_cons, h, if_true, ih]
    · simp only [List.dropWhile_cons, h, if_false, Bool.false_eq_true]

theorem head_dropWhile_not (p : Char → Bool) (l : List Char) :
    ∀ c, (l.dropWhile p).head? = some c → p c = false := by
  induction l with
  | nil => intro c h; simp at h
  | cons a t ih =>
    intro c h
    rw [List.dropWhile_cons] at h
    split at h
    · exact ih c h
    · rename_i hp
      simp only [List.head?_cons, Option.some.injEq] at h
      subst h
      simpa using hp

theorem pyStrip_idem (l : List Char) : pyStrip (pyStrip l) = pyStrip l := by
  unfold pyStrip
  set m := l.dropWhile isPySpace with hm
  set s := (m.reverse.dropWhile isPySpace).reverse with hs
  have hstep : s.dropWhile isPySpace = s := by
    cases hsc : s with
    | nil => rfl
    | cons c rest =>
      have hmhead : m.head? = some c := by
        have hsplit : m.reverse.takeWhile isPySpace ++ m.reverse.dropWhile isPySpace =
            m.reverse := List.takeWhile_append_dropWhile isPySpace m.reverse
        have : m = s ++ (m.reverse.takeWhile isPySpace).reverse := by
          rw [hs]
          calc m = m.reverse.reverse := (List.reverse_reverse m).symm
            _ = (m.reverse.takeWhile isPySpace ++ m.reverse.dropWhile isPySpace).reverse := by
                rw [hsplit]
            _ = (m.reverse.dropWhile isPySpace).reverse ++
                (m.reverse.takeWhile isPySpace).reverse := by
                rw [List.reverse_append]
        rw [this, hsc]
        rfl
      have hc : isPySpace c = false := head_dropWhile_not isPySpace l c (hm ▸ hmhead)
      rw [List.dropWhile_cons, hc]
      simp
  rw [hstep, hs, List.reverse_reverse, dropWhile_dropWhile]

/-! ## Claim theorems: parser evaluations -/

/-- C1: parse_timestamp raises ValueError (the FormatError of the spec) on
the empty text and on abc, but on 1:2:3:4, a colon text with four segments,
the source falls through the two- and three-segment dispatch with no else
branch and silently returns Python's None (ok none here), not an error.
This contradicts the function's docstring (return milliseconds) and the
interactive caller, which would compare None with 0 and crash. -/
theorem parse_timestamp_invalid_inputs :
    parse_timestamp "".toList = .error .valueError ∧
    parse_timestamp "abc".toList = .error .valueError ∧
    parse_timestamp "1:2:3:4".toList = .ok none := by
  refine ⟨by decide, by decide, by decide⟩

/-- C3: the five concrete parses of the spec: 5000ms gives 5000, 1:30 and
0:01:30 give 90000, 90 gives 90000, 90.5 gives 90500. -/
theorem parse_timestamp_concrete_values :
    parse_timestamp "5000ms".toList = .ok (some 5000) ∧
    parse_timestamp "1:30".toList = .ok (some 90000) ∧
    parse_timestamp "0:01:30".toList = .ok (some 90000) ∧
    parse_timestamp "90".toList = .ok (some 90000) ∧
    parse_timestamp "90.5".toList = .ok (some 90500) := by
  refine ⟨by decide, by decide, by decide, by decide, by decide⟩

/-- C8: parse_timestamp strips the input first (line 30), so parsing any
text equals parsing the text with leading and trailing whitespace removed;
concretely, the text 90 surrounded by spaces parses to 90000. -/
theorem parse_timestamp_strip_invariant :
    (∀ t : List Char, parse_timestamp t = parse_timestamp (pyStrip t)) ∧
    parse_timestamp " 90 ".toList = .ok (some 90000) := by
  constructor
  · intro t
    show parse_core (pyStrip t) = parse_core (pyStrip (pyStrip t))
    rw [pyStrip_idem]
  · decide

/-- C2 counterexample: on the no-colon, no-ms input 1.9999999999999999,
whose exact rational value s satisfies truncate(s * 1000) = 1999, the code
returns 2000: float() rounds the text to the nearest double, which is
exactly 2, before multiplying.  Exact-rational truncation semantics
therefore fails for this input. -/
theorem parse_seconds_exact_truncation_counterexample :
    specDecimalValue "1.9999999999999999".toList = some (mkRat 19999999999999999 (10 ^ 16)) ∧
    ratTrunc (mkRat 19999999999999999 (10 ^ 16) * (1000 : ℚ)) = 1999 ∧
    parse_timestamp "1.9999999999999999".toList = .ok (some 2000) ∧ (2000 : ℤ) ≠ 1999 := by
  refine ⟨by decide, ?_, by decide, by decide⟩
  have h : (1000 : ℚ) = ((1000 : ℤ) : ℚ) := by norm_num
  rw [h, ← qmulInt_eq]
  decide

/-- C9 counterexample: the two-segment input 0:1.9999999999999999 has
numeric segments with exact values m = 0 and s = 19999999999999999 / 10^16,
and truncate((m * 60 + s) * 1000) = 1999 over exact rationals, but the code
returns 2000 (float() rounds the seconds segment to exactly 2 before the
arithmetic), so the claimed exact formula fails for fractional segments. -/
theorem parse_colon_exact_formula_counterexample :
    parse_timestamp "0:1.9999999999999999".toList = .ok (some 2000) ∧
    ratTrunc (((0 : ℚ) * 60 + mkRat 19999999999999999 (10 ^ 16)) * (1000 : ℚ)) = 1999 ∧
    (2000 : ℤ) ≠ 1999 := by
  refine ⟨by decide, ?_, by decide⟩
  have h0 : ((0 : ℚ) * 60 + mkRat 19999999999999999 (10 ^ 16)) =
      mkRat 19999999999999999 (10 ^ 16) := by
    rw [zero_mul, zero_add]
  rw [h0]
  have h : (1000 : ℚ) = ((1000 : ℤ) : ℚ) := by norm_num
  rw [h, ← qmulInt_eq]
  decide

/-- C6 counterexample: at 360000000 milliseconds (one hundred hours) the
hours field is rendered with three digits, 100:00:00.00, so the claimed
two-digit zero-padded shape fails; the format 02d is a minimum width, not a
fixed width. -/
theorem format_duration_shape_counterexample :
    format_duration 360000000 = .ok "100:00:00.00".toList ∧
    isShapeHHMMSS "100:00:00.00".toList = false ∧
    isShapeMMSS "100:00:00.00".toList = false := by
  refine ⟨by decide, by decide, by decide⟩

/-! ## Claim theorems: trim orchestrator -/

/-- C4: for every loaded clip, export outcome and bounds, trim with a
negative start equals trim with start 0, and trim with an end beyond the
clip's duration equals trim with end equal to the duration: lines 78 to 81
clamp before anything else depends on the bounds. -/
theorem trim_clamp_equiv {α : Type} (audio : List α) (exportResult : Except PyErr Unit)
    (startMs endMs : ℤ) :
    (startMs < 0 →
      trim_audio (.ok audio) startMs endMs exportResult =
        trim_audio (.ok audio) 0 endMs exportResult) ∧
    ((audio.length : ℤ) < endMs →
      trim_audio (.ok audio) startMs endMs exportResult =
        trim_audio (.ok audio) startMs (audio.length : ℤ) exportResult) := by
  constructor
  · intro h
    show trim_core audio startMs endMs exportResult = trim_core audio 0 endMs exportResult
    unfold trim_core
    rw [if_pos h, if_neg (by omega : ¬(0:ℤ) < 0)]
  · intro h
    show trim_core audio startMs endMs exportResult =
      trim_core audio startMs (audio.length : ℤ) exportResult
    unfold trim_core
    rw [if_pos h, if_neg (by omega : ¬(audio.length:ℤ) < (audio.length:ℤ))]

/-- Witness for C4 at a concrete clip: start -3 clamps to 0 and end 9
clamps to the duration 5. -/
theorem trim_clamp_equiv_witness :
    trim_audio (.ok (List.replicate 5 ())) (-3) 4 (.ok ()) =
      trim_audio (.ok (List.replicate 5 ())) 0 4 (.ok ()) ∧
    trim_audio (.ok (List.replicate 5 ())) 1 9 (.ok ()) =
      trim_audio (.ok (List.replicate 5 ())) 1 ((List.replicate 5 ()).length : ℤ) (.ok ()) :=
  ⟨(trim_clamp_equiv (List.replicate 5 ()) (.ok ()) (-3) 4).1 (by decide),
   (trim_clamp_equiv (List.replicate 5 ()) (.ok ()) 1 9).2 (by decide)⟩

/-- C5: whenever the clamped bounds satisfy start >= end, trim returns the
failure result with the export step never invoked and nothing exported: the
ValueError of line 84 is raised before any slicing or export. -/
theorem trim_validation_failure {α : Type} (audio : List α) (exportResult : Except PyErr Unit)
    (startMs endMs : ℤ) (h : min endMs (audio.length : ℤ) ≤ max 0 startMs) :
    trim_audio (.ok audio) startMs endMs exportResult =
      ⟨false, false, (none : Option (List α))⟩ := by
  show trim_core audio startMs endMs exportResult = _
  unfold trim_core
  have hs : (if startMs < 0 then (0:ℤ) else startMs) = max 0 startMs := by
    rcases lt_or_le startMs 0 with h1 | h1
    · rw [if_pos h1, max_eq_left h1.le]
    · rw [if_neg (not_lt.2 h1), max_eq_right h1]
  have he : (if (audio.length:ℤ) < endMs then (audio.length:ℤ) else endMs) =
      min endMs (audio.length:ℤ) := by
    rcases lt_or_le (audio.length:ℤ) endMs with h1 | h1
    · rw [if_pos h1, min_eq_right h1.le]
    · rw [if_neg (not_lt.2 h1), min_eq_left h1]
  rw [hs, he]
  rcases hfd : format_duration ((audio.length : ℤ)) with e | v
  · rfl
  · show trim_validated audio (max 0 startMs) (min endMs (audio.length:ℤ)) exportResult = _
    unfold trim_validated
    rw [if_pos h]

/-- Witness for C5: start 3, end 2 on a five-element clip fails with no
export. -/
theorem trim_validation_failure_witness :
    trim_audio (.ok (List.replicate 5 ())) 3 2 (.ok ()) =
      ⟨false, false, (none : Option (List Unit))⟩ :=
  trim_validation_failure (List.replicate 5 ()) (.ok ()) 3 2 (by decide)

/-- C7: on a clip of duration 10000 ms, trim with start 2000 and end 8000
succeeds, exports exactly the half-open slice [2000, 8000), and the
exported clip's reported duration is 6000 ms (printed as 00:06.00). -/
theorem trim_slice_duration {α : Type} (audio : List α) (h : audio.length = 10000) :
    (trim_audio (.ok audio) 2000 8000 (.ok ())).success = true ∧
    (trim_audio (.ok audio) 2000 8000 (.ok ())).exported = some (pySlice audio 2000 8000) ∧
    (pySlice audio 2000 8000).length = 6000 ∧
    format_duration 6000 = .ok "00:06.00".toList := by
  have hlen : (pySlice audio 2000 8000).length = 6000 := by
    simp only [pySlice, List.length_take, List.length_drop, h]
    decide
  have htrim : trim_audio (.ok audio) 2000 8000 (.ok ()) =
      ⟨true, true, some (pySlice audio 2000 8000)⟩ := by
    show trim_core audio 2000 8000 (.ok ()) = _
    unfold trim_core
    rw [h]
    rw [if_neg (by decide : ¬(2000:ℤ) < 0), if_neg (by decide : ¬((10000:ℕ):ℤ) < 8000)]
    have hfd : format_duration ((10000 : ℕ) : ℤ) = .ok "00:10.00".toList := by decide
    rw [hfd]
    show trim_validated audio 2000 8000 (.ok ()) = _
    unfold trim_validated
    rw [if_neg (by decide : ¬(2000:ℤ) ≥ 8000)]
    have hfd2 : format_duration (2000 : ℤ) = .ok "00:02.00".toList := by decide
    have hfd8 : format_duration (8000 : ℤ) = .ok "00:08.00".toList := by decide
    have hfd6 : format_duration ((6000 : ℕ) : ℤ) = .ok "00:06.00".toList := by decide
    simp only [hfd2, hfd8, hlen, hfd6]
  rw [htrim]
  exact ⟨rfl, rfl, hlen, by decide⟩

/-- Witness for C7 at the concrete ten-second clip of replicated frames. -/
theorem trim_slice_duration_witness :
    (trim_audio (.ok (List.replicate 10000 ())) 2000 8000 (.ok ())).success = true ∧
    (trim_audio (.ok (List.replicate 10000 ())) 2000 8000 (.ok ())).exported =
      some (pySlice (List.replicate 10000 ()) 2000 8000) ∧
    (pySlice (List.replicate 10000 ()) 2000 8000).length = 6000 ∧
    format_duration 6000 = .ok "00:06.00".toList :=
  trim_slice_duration (List.replicate 10000 ()) (by rw [List.length_replicate])

/-- C10: trim_audio is total at its public interface: the try/except of
lines 68 to 99 catches every raised error (decode failure, validation
failure, encode failure, formatting overflow) and turns it into a False
return, so the result type is exception-free, and the returned boolean is
true exactly when every step succeeds. -/
theorem trim_audio_total {α : Type} (load : Except PyErr (List α)) (startMs endMs : ℤ)
    (exportResult : Except PyErr Unit) :
    (trim_audio load startMs endMs exportResult).success = true ↔
      ∃ audio : List α, load = .ok audio ∧
        (format_duration ((audio.length : ℤ))).isOk = true ∧
        ((if startMs < 0 then 0 else startMs) <
          (if (audio.length : ℤ) < endMs then (audio.length : ℤ) else endMs)) ∧
        (format_duration (if startMs < 0 then 0 else startMs)).isOk = true ∧
        (format_duration (if (audio.length : ℤ) < endMs then (audio.length : ℤ)
          else endMs)).isOk = true ∧
        exportResult = .ok () ∧
        (format_duration ((pySlice audio (if startMs < 0 then 0 else startMs)
          (if (audio.length : ℤ) < endMs then (audio.length : ℤ) else endMs)).length : ℤ)).isOk
          = true := by
  cases load with
  | error e => simp [trim_audio]
  | ok audio =>
    have hmain : (trim_audio (.ok audio) startMs endMs exportResult).success = true ↔
        (format_duration ((audio.length : ℤ))).isOk = true ∧
        ((if startMs < 0 then 0 else startMs) <
          (if (audio.length : ℤ) < endMs then (audio.length : ℤ) else endMs)) ∧
        (format_duration (if startMs < 0 then 0 else startMs)).isOk = true ∧
        (format_duration (if (audio.length : ℤ) < endMs then (audio.length : ℤ)
          else endMs)).isOk = true ∧
        exportResult = .ok () ∧
        (format_duration ((pySlice audio (if startMs < 0 then 0 else startMs)
          (if (audio.length : ℤ) < endMs then (audio.length : ℤ) else endMs)).length : ℤ)).isOk
          = true := by
      show (trim_core audio startMs endMs exportResult).success = true ↔ _
      unfold trim_core trim_validated
      rcases hA : format_duration ((audio.length : ℤ)) with eA | vA
      · simp [Except.isOk, Except.toBool]
      · rcases hcmp : decide ((if startMs < 0 then (0:ℤ) else startMs) ≥
            (if (audio.length:ℤ) < endMs then (audio.length:ℤ) else endMs)) with _ | _
        · have hlt : ¬((if startMs < 0 then (0:ℤ) else startMs) ≥
              (if (audio.length:ℤ) < endMs then (audio.length:ℤ) else endMs)) :=
            of_decide_eq_false hcmp
          rw [if_neg hlt]
          rcases hB : format_duration (if startMs < 0 then (0:ℤ) else startMs) with eB | vB
          · simp [hB, Except.isOk, Except.toBool]
          · rcases hC : format_duration (if (audio.length:ℤ) < endMs then (audio.length:ℤ)
                else endMs) with eC | vC
            · simp [hB, hC, Except.isOk, Except.toBool]
            · rcases exportResult with eD | vD
              · simp [hB, hC, Except.isOk, Except.toBool]
              · rcases hE : format_duration
                    ((pySlice audio (if startMs < 0 then (0:ℤ) else startMs)
                      (if (audio.length:ℤ) < endMs then (audio.length:ℤ)
                        else endMs)).length : ℤ) with eE | vE
                · simp [hB, hC, hE, Except.isOk, Except.toBool, lt_of_not_ge hlt]
                · simp [hB, hC, hE, Except.isOk, Except.toBool, lt_of_not_ge hlt]
        · have hge : (if startMs < 0 then (0:ℤ) else startMs) ≥
              (if (audio.length:ℤ) < endMs then (audio.length:ℤ) else endMs) :=
            of_decide_eq_true hcmp
          rw [if_pos hge]
          simp only [Bool.false_eq_true, false_iff]
          intro hcontra
          exact absurd hcontra.2.1 (not_lt.2 hge)
    rw [hmain]
    constructor
    · intro h
      exact ⟨audio, rfl, h⟩
    · rintro ⟨audio2, heq, h⟩
      injection heq with heq2
      subst heq2
      exact h

/-! ## Claim theorems: parser float semantics -/

theorem splitColon_no_colon (l : List Char) (h : l.contains ':' = false) :
    splitColon l = [l] := by
  induction l with
  | nil => rfl
  | cons c rest ih =>
    have hc : ¬(c = ':') ∧ rest.contains ':' = false := by
      constructor
      · intro hcc
        subst hcc
        simp [List.contains_cons] at h
      · cases hcr : rest.contains ':' with
        | false => rfl
        | true => rw [List.contains_cons, hcr, Bool.or_true] at h; cases h
    unfold splitColon
    rw [if_neg hc.1, ih hc.2]

/-- C2 amended: for every input whose stripped text has no ms suffix and no
colon, the result is int(float(text) * 1000): the text is rounded to the
nearest binary64 value, multiplied by the float 1000 (rounding again), and
truncated toward zero.  This is the code's line 47; it agrees with
truncation of the exact rational s * 1000 exactly when no rounding error
intervenes, which holds for the spec's examples but not for every input. -/
theorem parse_seconds_float_semantics (t : List Char) (f : PyFloat) (r : ℤ)
    (hms : endsMs (pyStrip t) = false)
    (hcolon : (pyStrip t).contains ':' = false)
    (hf : pyFloatVal (pyStrip t) = .ok f)
    (hr : pyIntOfFloat (mulD f (.finite 1000)) = .ok r) :
    parse_timestamp t = .ok (some r) := by
  show parse_core (pyStrip t) = _
  unfold parse_core
  simp only [hms, hcolon, Bool.false_eq_true, if_false, hf, hr]

/-- Witness for the amended C2 at the input 2.5, whose value and product
are exactly representable, so the result is the exact 2500. -/
theorem parse_seconds_float_semantics_witness :
    endsMs (pyStrip "2.5".toList) = false ∧
    (pyStrip "2.5".toList).contains ':' = false ∧
    parse_timestamp "2.5".toList = .ok (some 2500) :=
  ⟨by decide, by decide,
    parse_seconds_float_semantics "2.5".toList (.finite (mkRat 5 2)) 2500
      (by decide) (by decide) (by decide) (by decide)⟩

/-- C9 amended: colon-delimited segments are not range-validated.  For any
two-segment split whose segments float-parse to any finite or non-finite
values at all, the result is int((m * 60 + s) * 1000) in binary64
arithmetic, with no bounds check on either segment; likewise for three
segments with int((h * 3600 + m * 60 + s) * 1000).  On integer segments the
arithmetic is exact, giving the claim's concrete values 0:90 and 2:-30 both
90000 (and analogously for three segments); the exact-rational reading of
the formula fails only on fractional segments that round. -/
theorem parse_colon_no_range_validation :
    (∀ (t a b : List Char) (fm fs : PyFloat) (r : ℤ),
      endsMs (pyStrip t) = false →
      splitColon (pyStrip t) = [a, b] →
      pyFloatVal a = .ok fm → pyFloatVal b = .ok fs →
      pyIntOfFloat (mulD (addD (mulD fm (.finite 60)) fs) (.finite 1000)) = .ok r →
      parse_timestamp t = .ok (some r)) ∧
    (∀ (t a b c : List Char) (fh fm fs : PyFloat) (r : ℤ),
      endsMs (pyStrip t) = false →
      splitColon (pyStrip t) = [a, b, c] →
      pyFloatVal a = .ok fh → pyFloatVal b = .ok fm → pyFloatVal c = .ok fs →
      pyIntOfFloat (mulD (addD (addD (mulD fh (.finite 3600)) (mulD fm (.finite 60))) fs)
        (.finite 1000)) = .ok r →
      parse_timestamp t = .ok (some r)) ∧
    parse_timestamp "0:90".toList = .ok (some 90000) ∧
    parse_timestamp "2:-30".toList = .ok (some 90000) ∧
    parse_timestamp "0:0:90".toList = .ok (some 90000) ∧
    parse_timestamp "0:2:-30".toList = .ok (some 90000) := by
  refine ⟨?_, ?_, by decide, by decide, by decide, by decide⟩
  · intro t a b fm fs r hms hsplit hfa hfb hr
    have hcol : (pyStrip t).contains ':' = true := by
      cases hcc : (pyStrip t).contains ':' with
      | true => rfl
      | false => rw [splitColon_no_colon _ hcc] at hsplit; simp at hsplit
    show parse_core (pyStrip t) = _
    unfold parse_core
    simp only [hms, Bool.false_eq_true, if_false, hcol, if_true, hsplit, hfa, hfb, hr]
  · intro t a b c fh fm fs r hms hsplit hfa hfb hfc hr
    have hcol : (pyStrip t).contains ':' = true := by
      cases hcc : (pyStrip t).contains ':' with
      | true => rfl
      | false => rw [splitColon_no_colon _ hcc] at hsplit; simp at hsplit
    show parse_core (pyStrip t) = _
    unfold parse_core
    simp only [hms, Bool.false_eq_true, if_false, hcol, if_true, hsplit, hfa, hfb, hfc, hr]

/-- Witness for the amended C9 at 3:30, with segment values 3 and 30 and
exact result 210000. -/
theorem parse_colon_no_range_validation_witness :
    splitColon (pyStrip "3:30".toList) = [['3'], ['3', '0']] ∧
    parse_timestamp "3:30".toList = .ok (some 210000) :=
  ⟨by decide,
    parse_colon_no_range_validation.1 "3:30".toList ['3'] ['3', '0']
      (.finite 3) (.finite 30) 210000
      (by decide) (by decide) (by decide) (by decide) (by decide)⟩

/-! ## Bounds for the formatting proof -/

theorem rne_nonneg (q : ℚ) (h : 0 ≤ q) : 0 ≤ rne q := by
  unfold rne
  have hf : (0:ℤ) ≤ ⌊q⌋ := Int.floor_nonneg.2 h
  split_ifs <;> omega

theorem rne_le_floor_add_one (q : ℚ) : rne q ≤ ⌊q⌋ + 1 := by
  unfold rne
  split_ifs <;> omega

theorem ratTrunc_nonneg (q : ℚ) (h : 0 ≤ q) : 0 ≤ ratTrunc q := by
  unfold ratTrunc
  rw [if_pos h]
  exact Int.floor_nonneg.2 h

theorem ratTrunc_intCast (z : ℤ) : ratTrunc ((z : ℤ) : ℚ) = z := by
  unfold ratTrunc
  split
  · exact Int.floor_intCast z
  · rw [← Int.cast_neg, Int.floor_intCast]
    omega

theorem roundDouble_nonneg (q : ℚ) (hq : 0 ≤ q) :
    ∀ r, roundDouble q = .finite r → 0 ≤ r := by
  intro r hr
  unfold roundDouble at hr
  split at hr
  · injection hr with h
    rw [← h]
  · split at hr
    · cases hr
    · injection hr with h
      rw [← h, qmul_eq, qpow2_eq, if_neg (not_lt.2 hq)]
      have hm : 0 ≤ rdMant q := by
        apply rne_nonneg
        rw [qmul_eq, qpow2_eq]
        exact mul_nonneg (abs_nonneg q) (zpow_nonneg (by norm_num) _)
      have hm2 : (0:ℤ) ≤ rdM2 q := by
        unfold rdM2
        split_ifs <;> omega
      have hc : (0:ℚ) ≤ ((rdM2 q : ℤ) : ℚ) := Int.cast_nonneg.2 hm2
      exact mul_nonneg hc (zpow_nonneg (by norm_num) _)

set_option maxHeartbeats 3000000 in
/-- Small-integer values round to themselves: the doubles represent every
integer below 2 ^ 53 exactly, checked here for the range this proof needs. -/
theorem roundDouble_int_small :
    ∀ n : ℕ, n < 61 → roundDouble ((n : ℤ) : ℚ) = .finite ((n : ℤ) : ℚ) := by decide

theorem pyIntOfFloat_roundDouble_nonneg (p : ℚ) (hp : 0 ≤ p) (z : ℤ)
    (h : pyIntOfFloat (roundDouble p) = .ok z) : 0 ≤ z := by
  rcases hr : roundDouble p with r | s | _ <;> rw [hr] at h
  · injection h with h2
    rw [← h2]
    exact ratTrunc_nonneg r (roundDouble_nonneg p hp r hr)
  · cases h
  · cases h

theorem pymodD_finite_range (q : ℚ) (n : ℤ) (hn : 0 < n) :
    pymodD (.finite q) n = .ok (.finite (qsub q ((⌊qdivInt q n⌋ * n : ℤ) : ℚ))) ∧
    0 ≤ qsub q ((⌊qdivInt q n⌋ * n : ℤ) : ℚ) ∧
    qsub q ((⌊qdivInt q n⌋ * n : ℤ) : ℚ) < (n : ℚ) := by
  have hn0 : n ≠ 0 := by omega
  have hn' : (0:ℚ) < (n:ℚ) := by exact_mod_cast hn
  have hfl : (⌊qdivInt q n⌋ : ℚ) ≤ q / (n:ℚ) := by
    rw [qdivInt_eq]
    exact Int.floor_le _
  have hfu : q / (n:ℚ) < (⌊qdivInt q n⌋ : ℚ) + 1 := by
    rw [qdivInt_eq]
    exact Int.lt_floor_add_one _
  have h1 : (⌊qdivInt q n⌋ : ℚ) * n ≤ (q / n) * n :=
    mul_le_mul_of_nonneg_right hfl hn'.le
  have h2 : (q / n) * n < ((⌊qdivInt q n⌋ : ℚ) + 1) * n :=
    mul_lt_mul_of_pos_right hfu hn'
  rw [div_mul_cancel₀ _ (ne_of_gt hn')] at h1 h2
  refine ⟨?_, ?_, ?_⟩
  · simp [pymodD, hn0]
  · rw [qsub_eq]
    push_cast
    linarith
  · rw [qsub_eq]
    push_cast
    nlinarith [h2]

theorem floor_qdivInt_bound (r : ℚ) (b n : ℤ) (hn : 0 < n) (hr0 : 0 ≤ r)
    (hrb : r < (b : ℚ) * n) : 0 ≤ ⌊qdivInt r n⌋ ∧ ⌊qdivInt r n⌋ < b := by
  have hn' : (0:ℚ) < (n:ℚ) := by exact_mod_cast hn
  rw [qdivInt_eq]
  constructor
  · exact Int.floor_nonneg.2 (div_nonneg hr0 hn'.le)
  · rw [Int.floor_lt, div_lt_iff₀ hn']
    linarith

theorem intTrueDiv_nonneg (a b : ℤ) (ha : 0 ≤ a) (hb : 0 < b) :
    ∀ x, intTrueDiv a b = .ok x → ∃ q, x = .finite q ∧ 0 ≤ q := by
  intro x hx
  have hdq : (0:ℚ) ≤ Rat.divInt a b := by
    rw [Rat.divInt_eq_div]
    have ha' : (0:ℚ) ≤ (a:ℚ) := by exact_mod_cast ha
    have hb' : (0:ℚ) ≤ (b:ℚ) := by exact_mod_cast hb.le
    exact div_nonneg ha' hb'
  unfold intTrueDiv at hx
  rw [if_neg (by omega : ¬b = 0)] at hx
  rcases hr : roundDouble (Rat.divInt a b) with q | s | _ <;> rw [hr] at hx
  · injection hx with h
    exact ⟨q, h.symm, roundDouble_nonneg _ hdq q hr⟩
  · cases hx
  · cases hx

/-! ## Digit shape lemmas for the formatter -/

set_option maxHeartbeats 1000000 in
/-- The format 02d of the integers 0 to 99 is two digit characters. -/
theorem pad2_two_digits :
    ∀ n : ℕ, n < 100 →
      (pad2 ((n : ℕ) : ℤ)).length = 2 ∧ (pad2 ((n : ℕ) : ℤ)).all Char.isDigit = true := by
  decide

set_option maxHeartbeats 1000000 in
/-- Two-digit zero padding of the numbers 0 to 99. -/
theorem padZeros2_two_digits :
    ∀ n : ℕ, n < 100 →
      (padZeros 2 (natDigits n)).length = 2 ∧
        (padZeros 2 (natDigits n)).all Char.isDigit = true := by
  decide

set_option maxHeartbeats 1000000 in
/-- The numbers 0 to 60 print as one or two digit characters. -/
theorem natDigits_small :
    ∀ n : ℕ, n < 61 →
      ((natDigits n).length = 1 ∨ (natDigits n).length = 2) ∧
        (natDigits n).all Char.isDigit = true := by
  decide

theorem exists_pair_of_length_two {l : List Char} (h : l.length = 2) :
    ∃ x y, l = [x, y] := by
  rcases l with _ | ⟨x, _ | ⟨y, _ | _⟩⟩ <;> simp at h
  exact ⟨x, y, rfl⟩

/-- Zero padding a digit body of the form A.B (A one or two digits, B two
digits) to width five yields exactly the shape two digits, dot, two digits. -/
theorem padZeros5_shape (A B : List Char)
    (hA : A.length = 1 ∨ A.length = 2) (hAd : A.all Char.isDigit = true)
    (hB : B.length = 2) (hBd : B.all Char.isDigit = true) :
    ∃ a b c d, padZeros 5 (A ++ '.' :: B) = [a, b, '.', c, d] ∧
      a.isDigit = true ∧ b.isDigit = true ∧ c.isDigit = true ∧ d.isDigit = true := by
  obtain ⟨c, d, rfl⟩ := exists_pair_of_length_two hB
  simp only [List.all_cons, List.all_nil, Bool.and_true, Bool.and_eq_true] at hBd
  rcases hA with h1 | h2
  · rcases A with _ | ⟨a, _ | _⟩ <;> simp at h1
    simp only [List.all_cons, List.all_nil, Bool.and_true] at hAd
    refine ⟨'0', a, c, d, ?_, by decide, hAd, hBd.1, hBd.2⟩
    rfl
  · obtain ⟨a, b, rfl⟩ := exists_pair_of_length_two h2
    simp only [List.all_cons, List.all_nil, Bool.and_true, Bool.and_eq_true] at hAd
    exact ⟨a, b, c, d, rfl, hAd.1, hAd.2, hBd.1, hBd.2⟩

/-- The format 05.2f of a finite nonnegative seconds value below 60 has the
shape two digits, dot, two digits (the integer part can reach 60 after
rounding, still two digits). -/
theorem fmt52_shape (q : ℚ) (h0 : 0 ≤ q) (hb : q < 60) :
    ∃ a b c d, fmt52 (.finite q) = [a, b, '.', c, d] ∧
      a.isDigit = true ∧ b.isDigit = true ∧ c.isDigit = true ∧ d.isDigit = true := by
  have habs : |q| = q := abs_of_nonneg h0
  have hn2l : 0 ≤ rne (qmulInt |q| 100) := by
    apply rne_nonneg
    rw [qmulInt_eq, habs]
    positivity
  have hn2u : rne (qmulInt |q| 100) ≤ 6000 := by
    have h1 := rne_le_floor_add_one (qmulInt |q| 100)
    have h2 : ⌊qmulInt |q| 100⌋ < 6000 := by
      rw [qmulInt_eq, habs, Int.floor_lt]
      push_cast
      linarith
    omega
  have hfm : fmt52 (.finite q) =
      padZeros 5 (natDigits (rne (qmulInt |q| 100) / 100).toNat ++
        '.' :: padZeros 2 (natDigits (rne (qmulInt |q| 100) % 100).toNat)) := by
    simp only [fmt52]
    rw [if_neg (not_lt.2 h0)]
  rw [hfm]
  obtain ⟨hA, hAd⟩ := natDigits_small (rne (qmulInt |q| 100) / 100).toNat (by omega)
  obtain ⟨hB, hBd⟩ := padZeros2_two_digits (rne (qmulInt |q| 100) % 100).toNat (by omega)
  exact padZeros5_shape _ _ hA hAd hB hBd

/-- C6: the two concrete renderings of the spec hold, and the amended
general shape: whenever format_duration returns a string for a nonnegative
input whose computed hours component is at most 99, the string is MM:SS.ss
for zero hours and HH:MM:SS.ss for positive hours, all fields digits.  (The
unamended claim fails at 100 hours, where the hours field has three
digits.) -/
theorem format_duration_shape :
    format_duration 90000 = .ok "01:30.00".toList ∧
    format_duration 3661000 = .ok "01:01:01.00".toList ∧
    (∀ (ms : ℤ) (s : List Char) (h : ℤ),
      0 ≤ ms → format_duration ms = .ok s → fd_hours ms = some h → h ≤ 99 →
      (h = 0 ∧ isShapeMMSS s = true) ∨ (0 < h ∧ isShapeHHMMSS s = true)) := by
  refine ⟨by decide, by decide, ?_⟩
  intro ms s h hms hfd hh h99
  unfold format_duration at hfd
  unfold fd_hours at hh
  rcases hA : intTrueDiv ms 1000 with eA | sec
  · rw [hA] at hfd; cases hfd
  obtain ⟨qs, rfl, hqs⟩ := intTrueDiv_nonneg ms 1000 hms (by omega) sec hA
  simp only [hA] at hfd hh
  have hfdiv : floordivD (.finite qs) 3600 =
      .ok (roundDouble ((⌊qdivInt qs 3600⌋ : ℤ) : ℚ)) := by
    simp [floordivD]
  simp only [hfdiv] at hfd hh
  rcases hP : pyIntOfFloat (roundDouble ((⌊qdivInt qs 3600⌋ : ℤ) : ℚ)) with eP | hours
  · rw [hP] at hfd
    simp only at hfd
    cases hfd
  simp only [hP] at hfd hh
  have hh2 : hours = h := by injection hh
  subst hh2
  have hk1 : (0:ℤ) ≤ ⌊qdivInt qs 3600⌋ := by
    rw [qdivInt_eq]
    exact Int.floor_nonneg.2 (div_nonneg hqs (by norm_num))
  have hh0 : 0 ≤ hours :=
    pyIntOfFloat_roundDouble_nonneg _ (by exact_mod_cast hk1) hours hP
  obtain ⟨hm1eq, hr10, hr1b⟩ := pymodD_finite_range qs 3600 (by omega)
  simp only [hm1eq] at hfd
  have hfdiv2 : floordivD (.finite (qsub qs ((⌊qdivInt qs 3600⌋ * 3600 : ℤ) : ℚ))) 60 =
      .ok (roundDouble ((⌊qdivInt (qsub qs ((⌊qdivInt qs 3600⌋ * 3600 : ℤ) : ℚ)) 60⌋ : ℤ) : ℚ)) := by
    simp [floordivD]
  simp only [hfdiv2] at hfd
  have hkb : 0 ≤ ⌊qdivInt (qsub qs ((⌊qdivInt qs 3600⌋ * 3600 : ℤ) : ℚ)) 60⌋ ∧
      ⌊qdivInt (qsub qs ((⌊qdivInt qs 3600⌋ * 3600 : ℤ) : ℚ)) 60⌋ < 60 := by
    apply floor_qdivInt_bound _ 60 60 (by omega) hr10
    push_cast
    push_cast at hr1b
    linarith
  have hksmall : roundDouble ((⌊qdivInt (qsub qs ((⌊qdivInt qs 3600⌋ * 3600 : ℤ) : ℚ)) 60⌋ : ℤ) : ℚ) =
      .finite ((⌊qdivInt (qsub qs ((⌊qdivInt qs 3600⌋ * 3600 : ℤ) : ℚ)) 60⌋ : ℤ) : ℚ) := by
    rw [show ⌊qdivInt (qsub qs ((⌊qdivInt qs 3600⌋ * 3600 : ℤ) : ℚ)) 60⌋ =
        ((⌊qdivInt (qsub qs ((⌊qdivInt qs 3600⌋ * 3600 : ℤ) : ℚ)) 60⌋).toNat : ℤ) from
      (Int.toNat_of_nonneg hkb.1).symm]
    exact roundDouble_int_small _ (by omega)
  simp only [hksmall] at hfd
  have hmin : pyIntOfFloat
      (.finite ((⌊qdivInt (qsub qs ((⌊qdivInt qs 3600⌋ * 3600 : ℤ) : ℚ)) 60⌋ : ℤ) : ℚ)) =
      .ok ⌊qdivInt (qsub qs ((⌊qdivInt qs 3600⌋ * 3600 : ℤ) : ℚ)) 60⌋ := by
    simp [pyIntOfFloat, ratTrunc_intCast]
  simp only [hmin] at hfd
  obtain ⟨hm2eq, hr20, hr2b⟩ := pymodD_finite_range qs 60 (by omega)
  simp only [hm2eq] at hfd
  obtain ⟨sa, sb, sc, sd, hfmt, hsa, hsb, hsc, hsd⟩ :=
    fmt52_shape (qsub qs ((⌊qdivInt qs 60⌋ * 60 : ℤ) : ℚ)) hr20
      (by push_cast at hr2b; exact_mod_cast hr2b)
  obtain ⟨hplen, hpdig⟩ := pad2_two_digits
    (⌊qdivInt (qsub qs ((⌊qdivInt qs 3600⌋ * 3600 : ℤ) : ℚ)) 60⌋).toNat (by omega)
  have hmins : ⌊qdivInt (qsub qs ((⌊qdivInt qs 3600⌋ * 3600 : ℤ) : ℚ)) 60⌋ =
      (((⌊qdivInt (qsub qs ((⌊qdivInt qs 3600⌋ * 3600 : ℤ) : ℚ)) 60⌋).toNat : ℕ) : ℤ) :=
    (Int.toNat_of_nonneg hkb.1).symm
  have hplen2 : (pad2 ⌊qdivInt (qsub qs ((⌊qdivInt qs 3600⌋ * 3600 : ℤ) : ℚ)) 60⌋).length = 2 := by
    rw [hmins]
    exact hplen
  have hpdig2 : (pad2 ⌊qdivInt (qsub qs ((⌊qdivInt qs 3600⌋ * 3600 : ℤ) : ℚ)) 60⌋).all
      Char.isDigit = true := by
    rw [hmins]
    exact hpdig
  obtain ⟨u, v, huv⟩ := exists_pair_of_length_two hplen2
  have huvd : u.isDigit = true ∧ v.isDigit = true := by
    rw [huv] at hpdig2
    simpa [List.all_cons] using hpdig2
  by_cases hpos : hours > 0
  · rw [if_pos hpos] at hfd
    have hs : pad2 hours ++ ':' :: (pad2 ⌊qdivInt (qsub qs ((⌊qdivInt qs 3600⌋ * 3600 : ℤ) : ℚ)) 60⌋ ++
        ':' :: fmt52 (.finite (qsub qs ((⌊qdivInt qs 60⌋ * 60 : ℤ) : ℚ)))) = s := by
      injection hfd
    right
    refine ⟨hpos, ?_⟩
    rw [← hs]
    obtain ⟨hqlen, hqdig⟩ := pad2_two_digits hours.toNat (by omega)
    have hhcast : hours = ((hours.toNat : ℕ) : ℤ) := (Int.toNat_of_nonneg hh0).symm
    have hqlen2 : (pad2 hours).length = 2 := by
      rw [hhcast]
      exact hqlen
    have hqdig2 : (pad2 hours).all Char.isDigit = true := by
      rw [hhcast]
      exact hqdig
    obtain ⟨x, y, hxy⟩ := exists_pair_of_length_two hqlen2
    have hxyd : x.isDigit = true ∧ y.isDigit = true := by
      rw [hxy] at hqdig2
      simpa [List.all_cons] using hqdig2
    rw [hxy, huv, hfmt]
    simp [isShapeHHMMSS, hxyd.1, hxyd.2, huvd.1, huvd.2, hsa, hsb, hsc, hsd]
  · rw [if_neg hpos] at hfd
    have hs : pad2 ⌊qdivInt (qsub qs ((⌊qdivInt qs 3600⌋ * 3600 : ℤ) : ℚ)) 60⌋ ++
        ':' :: fmt52 (.finite (qsub qs ((⌊qdivInt qs 60⌋ * 60 : ℤ) : ℚ))) = s := by
      injection hfd
    left
    refine ⟨by omega, ?_⟩
    rw [← hs, huv, hfmt]
    simp [isShapeMMSS, huvd.1, huvd.2, hsa, hsb, hsc, hsd]

/-- Witness for C6 at 3661000 ms, whose hours component is 1 and whose
rendering has the HH:MM:SS.ss shape. -/
theorem format_duration_shape_witness :
    fd_hours 3661000 = some 1 ∧
    (((1:ℤ) = 0 ∧ isShapeMMSS "01:01:01.00".toList = true) ∨
      (0 < (1:ℤ) ∧ isShapeHHMMSS "01:01:01.00".toList = true)) :=
  ⟨by decide, format_duration_shape.2.2 3661000 "01:01:01.00".toList 1 (by decide)
    (by decide) (by decide) (by decide)⟩

/-- Witness for C8 at a concrete input with surrounding blanks. -/
theorem parse_timestamp_strip_invariant_witness :
    parse_timestamp "  1:30  ".toList = parse_timestamp (pyStrip "  1:30  ".toList) :=
  parse_timestamp_strip_invariant.1 "  1:30  ".toList

/-- Witness for C10 at a concrete three-frame clip with all steps
succeeding. -/
theorem trim_audio_total_witness :
    (trim_audio (.ok [(), (), ()]) 0 2 (.ok ())).success = true :=
  (trim_audio_total (.ok [(), (), ()]) 0 2 (.ok ())).mpr
    ⟨[(), (), ()], rfl, by decide, by decide, by decide, by decide, rfl, by decide⟩
